import Mathlib

/-!
Verification development for the pg-dump-cache server.

This file gives a shallow embedding of the cache/refresh coordinator of the
pg-dump-cache repository (the Bun server source: state `latestCache` /
`refreshing` / `refreshPromise`, the functions `getCacheAgeSeconds`,
`needsRefresh`, `performDump`, `cleanupOldDumps`, `doRefresh`,
`ensureFreshCache`, `triggerRefresh`, and the `Bun.serve` fetch handler),
together with proofs of the specified properties.

Modelling conventions:
* JavaScript numbers are modelled exactly: epoch-millisecond clock readings
  as `Int`, second/TTL quantities as `ℚ` (the values involved are decimal
  fractions far below 2^53, where float64 arithmetic is exact for the
  comparisons made by the code).
* The artifact store (the cache directory) is modelled as the list of file
  names `readdir` would return.
* The async control flow of `ensureFreshCache` / `doRefresh` /
  `triggerRefresh` is modelled as a labelled transition system: each
  transition is one synchronous segment of JavaScript code between `await`
  points, which is exactly the atomicity granularity of the Bun event loop.
* `JSON.stringify`d response bodies are modelled structurally.
-/

/-- `CacheEntry` (source: `type CacheEntry = { path: string; timestamp: Date }`).
The `Date` is represented by its epoch-millisecond value. -/
structure CacheEntry where
  path : String
  timestamp : Int
deriving DecidableEq, Repr

/-- A parsed dump file as built inside `cleanupOldDumps`:
`{ file: f, timestamp: Number(match[1]) }` where `f` matched
`/^dump-(\d+)\.tar\.gz$/`.  The timestamp is the parsed digit string,
hence a natural number. -/
structure DumpFile where
  file : String
  timestamp : Nat
deriving DecidableEq, Repr

/-- Age of a cache entry in seconds:
`(Date.now() - latestCache.timestamp.getTime()) / 1000`
(source: `getCacheAgeSeconds`, the non-null branch). -/
def getCacheAgeSeconds (now : Int) (e : CacheEntry) : ℚ :=
  ((now : ℚ) - (e.timestamp : ℚ)) / 1000

/-- Source: `needsRefresh(ttl)` = `!latestCache || getCacheAgeSeconds() > ttl`.
When `latestCache` is null the disjunction short-circuits to true (the
`Infinity` returned by `getCacheAgeSeconds` is never compared). -/
def needsRefresh (now : Int) (c : Option CacheEntry) (ttl : ℚ) : Bool :=
  match c with
  | none => true
  | some e => decide (getCacheAgeSeconds now e > ttl)

/-- `Math.round(x)` for rational `x`: JavaScript rounds half-up,
`Math.round(x) = ⌊x + 1/2⌋`. -/
def jsRound (x : ℚ) : Int := ⌊x + 1 / 2⌋

/-- `f.endsWith(suffix)` modelled on the character list of the string. -/
def strEndsWith (s suf : String) : Bool := suf.data.isSuffixOf s.data

/-- Value of a digit string, as `Number()` computes it for a `\d+` match. -/
def digitsToNat (cs : List Char) : Nat :=
  cs.foldl (fun n c => 10 * n + (c.toNat - '0'.toNat)) 0

/-- The regex step of `cleanupOldDumps` / `loadExistingDumps`:
`f.match(/^dump-(\d+)\.tar\.gz$/)`, yielding `{ file: f, timestamp: Number(match[1]) }`
on a full match and nothing otherwise.  A full match means `f` is literally
`"dump-"`, then one or more digits, then `".tar.gz"`. -/
def parseDumpFile (f : String) : Option DumpFile :=
  let cs := f.data
  let mid := (cs.drop 5).take ((cs.drop 5).length - 7)
  if "dump-".data.isPrefixOf cs ∧ ".tar.gz".data.isSuffixOf cs ∧
      mid ≠ [] ∧ mid.all Char.isDigit then
    some ⟨f, digitsToNat mid⟩
  else
    none

/-- The unsorted parsed listing built in `cleanupOldDumps` lines 96-102:
`files.filter(f => f.endsWith(".tar.gz")).map(regex).filter(x => x !== null)`. -/
def dumpEntriesOf (files : List String) : List DumpFile :=
  (files.filter (fun f => strEndsWith f ".tar.gz")).filterMap parseDumpFile

/-- One insertion step of the stable descending-timestamp sort.  A new
element goes in front of the first strictly-older element; on a timestamp
tie the element already in place stays first, which is exactly the stable
behaviour of JavaScript `Array.prototype.sort` with the comparator
`(a, b) => b.timestamp - a.timestamp`. -/
def insertDumpDesc (a : DumpFile) : List DumpFile → List DumpFile
  | [] => [a]
  | b :: t => if b.timestamp ≤ a.timestamp then a :: b :: t else b :: insertDumpDesc a t

/-- `dumpFiles.sort((a, b) => b.timestamp - a.timestamp)`: the stable sort
by creation instant descending (source line 103), realised as a stable
insertion sort so that every result is computable by the kernel. -/
def sortDumpsDesc (l : List DumpFile) : List DumpFile := l.foldr insertDumpDesc []

/-- The sorted listing of `cleanupOldDumps` (lines 96-103). -/
def dumpFilesOf (files : List String) : List DumpFile :=
  sortDumpsDesc (dumpEntriesOf files)

/-- `const toDelete = dumpFiles.slice(KEEP_COUNT)` (source line 105). -/
def cleanupToDelete (files : List String) (keep : Nat) : List DumpFile :=
  (dumpFilesOf files).drop keep

/-- The entries `cleanupOldDumps` retains: everything not in `toDelete`,
i.e. the first `keep` entries of the descending listing. -/
def cleanupKept (files : List String) (keep : Nat) : List DumpFile :=
  (dumpFilesOf files).take keep

/-- The deletion loop of `cleanupOldDumps` (lines 106-110):
`for (const { file } of toDelete) { ...; await rm(path); }`.
`rmFails` tells which `rm` calls reject; a rejection aborts the loop (there
is no try/catch around it) and the store keeps every file not yet removed. -/
def rmSeq (rmFails : String → Bool) : List String → List String → Except String Unit × List String
  | [], store => (Except.ok (), store)
  | f :: rest, store =>
    if rmFails f then (Except.error ("rm failed: " ++ f), store)
    else rmSeq rmFails rest (store.erase f)

/-- `cleanupOldDumps` as a whole: list + parse + sort + slice, then the
deletion loop, returning the outcome of the pass and the store contents
after it. -/
def cleanupOldDumps (keep : Nat) (rmFails : String → Bool) (files : List String) :
    Except String Unit × List String :=
  rmSeq rmFails ((cleanupToDelete files keep).map (·.file)) files

/-- `dump-${timestamp.getTime()}.tar.gz` (source line 58). -/
def dumpFileName (t : Int) : String := "dump-" ++ toString t ++ ".tar.gz"

/-- The entry a successful `performDump` returns: `path = join(CACHE_DIR, filename)`
with `filename = dump-<now>.tar.gz`, `timestamp = now` (lines 56-92). -/
def performDumpEntry (dir : String) (now : Int) : CacheEntry :=
  ⟨dir ++ "/" ++ dumpFileName now, now⟩

/-- `doRefresh` (lines 113-121) at store granularity:
`latestCache = await performDump(); await cleanupOldDumps();` inside a
try/catch that logs and rethrows.  `dumpResult` is the outcome of
`performDump` (`.ok t` = a dump written at instant `t`); on success the
written file joins the store listing before the cleanup pass runs.
Returns (outcome delivered to the refresh promise, `latestCache` after,
store after). -/
def doRefreshModel (dir : String) (keep : Nat) (rmFails : String → Bool)
    (c0 : Option CacheEntry) (dumpResult : Except String Int) (files : List String) :
    Except String Unit × Option CacheEntry × List String :=
  match dumpResult with
  | Except.error err => (Except.error err, c0, files)
  | Except.ok t =>
    let files1 := files ++ [dumpFileName t]
    let r := cleanupOldDumps keep rmFails files1
    (r.1, some (performDumpEntry dir t), r.2)

/-- The coordinator state the endpoint layer reads and writes synchronously:
`latestCache` and `refreshing` (source lines 20-21). -/
structure ServerState where
  latestCache : Option CacheEntry
  refreshing : Bool
deriving DecidableEq, Repr

/-- `latestCache.path.split("/").pop()`: the basename used in the
`Content-Disposition` header. -/
def lastComponent (s : String) : String := String.mk ((s.data.splitOn '/').getLastD [])

/-- Structured view of the response bodies the fetch handler can produce. -/
inductive RespBody where
  /-- `/status` body: `{ hasCache, cacheTimestamp, cacheAgeSeconds, refreshing, ttl }`
  (ISO-8601 strings are represented by the underlying epoch-millisecond value). -/
  | statusJson (hasCache : Bool) (cacheTimestamp : Option Int)
      (cacheAgeSeconds : Option Int) (refreshing : Bool) (ttl : ℚ)
  /-- `{ error: <error>, retryable: <retryable> }` -/
  | jsonErr (error : String) (retryable : Bool)
  /-- `{ error: "Refresh already in progress", refreshing: true }` -/
  | jsonBusy
  /-- `{ success: true, cacheTimestamp: <t> }` -/
  | jsonRefreshOk (cacheTimestamp : Option Int)
  /-- `{ error: "Refresh failed", message: <message> }` -/
  | jsonRefreshFail (message : String)
  /-- The dump file itself plus its headers: `Content-Disposition` filename,
  `X-Cache-Age-Minutes`, `X-Cache-Timestamp`. -/
  | fileDump (path : String) (filename : String) (ageMinutes : Int) (timestamp : Int)
  /-- A plain-text body (`"Refresh failed"`, `"Not found"`). -/
  | text (s : String)
deriving DecidableEq, Repr

/-- An HTTP response: status code plus body. -/
structure Response where
  status : Nat
  body : RespBody
deriving DecidableEq, Repr

/-- The `/status` handler body (source lines 166-174).  `cfgTTL` is the
process-wide `TTL` constant, which is what the handler reports (not the
query parameter). -/
def statusOf (now : Int) (cfgTTL : ℚ) (s : ServerState) : RespBody :=
  RespBody.statusJson
    s.latestCache.isSome
    (s.latestCache.map (·.timestamp))
    (s.latestCache.map (fun e => jsRound (getCacheAgeSeconds now e)))
    s.refreshing
    cfgTTL

/-- The serve phase of the `/dump` handler (source lines 189-214): runs after
the wait/trigger prelude, with `store` the set of files present at serve
time.  If no entry exists: 503 "No cached dump available".  If the entry's
file vanished: invalidate `latestCache` and 503 "Cache file missing".
Otherwise: 200 with the file and its headers. -/
def dumpServePhase (now : Int) (store : List String) (s : ServerState) :
    Response × ServerState :=
  match s.latestCache with
  | none => (⟨503, RespBody.jsonErr "No cached dump available" true⟩, s)
  | some e =>
    if e.path ∈ store then
      (⟨200, RespBody.fileDump e.path (lastComponent e.path)
          (jsRound (getCacheAgeSeconds now e / 60)) e.timestamp⟩, s)
    else
      (⟨503, RespBody.jsonErr "Cache file missing" true⟩, { s with latestCache := none })

/-- The synchronous effect of `triggerRefresh(ttl)` on the endpoint-visible
state (source lines 141-151): no-op when a refresh is in flight or the cache
is fresh, otherwise the refresh slot is taken before returning.  (The full
fire-and-forget behaviour, including the spawned attempt, is modelled by
`triggerFn` on the transition system below.) -/
def triggerRefreshSync (now : Int) (ttl : ℚ) (s : ServerState) : ServerState :=
  if s.refreshing then s
  else if ¬ needsRefresh now s.latestCache ttl then s
  else { s with refreshing := true }

/-- An inbound HTTP request as the fetch handler consumes it: method, path,
the `wait=true` and `ttl` search parameters, and the `Authorization` header
value (if any). -/
structure Request where
  method : String
  path : String
  wait : Bool
  ttlParam : Option ℚ
  authorization : Option String
deriving DecidableEq, Repr

/-- The `Bun.serve` fetch handler (source lines 160-241).  The two routes
that `await ensureFreshCache` are parametrised by that call's outcome:
`ensureResult` is the settlement of the awaited refresh (if any) and
`ensureState` the coordinator state when the await returns.  Everything
else is the handler's own synchronous logic. -/
def handleFetch (now : Int) (cfgTTL : ℚ) (store : List String)
    (ensureResult : Except String Unit) (ensureState : ServerState)
    (req : Request) (s : ServerState) : Response × ServerState :=
  let ttl := req.ttlParam.getD cfgTTL
  if req.method = "GET" ∧ req.path = "/status" then
    (⟨200, statusOf now cfgTTL s⟩, s)
  else if req.method = "GET" ∧ req.path = "/dump" then
    if req.wait then
      match ensureResult with
      | Except.error _ => (⟨500, RespBody.text "Refresh failed"⟩, ensureState)
      | Except.ok _ => dumpServePhase now store ensureState
    else
      dumpServePhase now store (triggerRefreshSync now ttl s)
  else if req.method = "POST" ∧ req.path = "/refresh" then
    if s.refreshing then
      (⟨409, RespBody.jsonBusy⟩, s)
    else
      match ensureResult with
      | Except.ok _ =>
        (⟨200, RespBody.jsonRefreshOk (ensureState.latestCache.map (·.timestamp))⟩, ensureState)
      | Except.error msg => (⟨500, RespBody.jsonRefreshFail msg⟩, ensureState)
  else
    (⟨404, RespBody.text "Not found"⟩, s)

/-- Decidable equality for `Except`, used to compare settled promise
outcomes. -/
instance instDecEqExcept {α β : Type _} [DecidableEq α] [DecidableEq β] :
    DecidableEq (Except α β)
  | Except.ok a, Except.ok b =>
    if h : a = b then isTrue (congrArg Except.ok h)
    else isFalse (fun he => h (Except.ok.inj he))
  | Except.error a, Except.error b =>
    if h : a = b then isTrue (congrArg Except.error h)
    else isFalse (fun he => h (Except.error.inj he))
  | Except.ok _, Except.error _ => isFalse (fun he => Except.noConfusion he)
  | Except.error _, Except.ok _ => isFalse (fun he => Except.noConfusion he)

/-- Phase of one refresh attempt (one invocation of `doRefresh`, lines
113-121).  `dumping` = suspended inside `performDump`; `cleaning e` =
`latestCache = e` has been assigned and the attempt is suspended inside
`cleanupOldDumps`; `settled out` = the promise produced by
`doRefresh().finally(...)` has settled with `out` (the `finally` callback
has already run, since waiters await the `finally`-derived promise). -/
inductive AttemptPhase where
  | dumping
  | cleaning (entry : CacheEntry)
  | settled (out : Except String Unit)
deriving DecidableEq, Repr

/-- Whether an attempt's promise has settled. -/
def AttemptPhase.isSettled : AttemptPhase → Bool
  | AttemptPhase.settled _ => true
  | _ => false

/-- Program counter of one `ensureFreshCache` caller, split at its `await`
points.  `notStarted` = the call has not been issued yet; `ready` = at the
top of the `while (refreshing)` loop; `awaitingJoin rid` = suspended on
`await refreshPromise` inside the loop (joined attempt `rid`);
`awaitingOwn rid` = suspended on `await refreshPromise` after starting
attempt `rid`; `done out` = the call returned (`.ok c` with `c` the
`latestCache` observable at return) or threw (`.error e`). -/
inductive CallerPC where
  | notStarted
  | ready
  | awaitingJoin (rid : Nat)
  | awaitingOwn (rid : Nat)
  | done (out : Except String (Option CacheEntry))
deriving DecidableEq, Repr

/-- Whether a caller has returned or thrown. -/
def CallerPC.isDone : CallerPC → Bool
  | CallerPC.done _ => true
  | _ => false

/-- One `ensureFreshCache(ttl)` caller. -/
structure Caller where
  ttl : ℚ
  pc : CallerPC
deriving DecidableEq, Repr

/-- The coordinator state plus the bookkeeping needed to state the
single-flight properties: the globals `latestCache`, `refreshing`,
`refreshPromise` (lines 20-22; a promise is identified by the index of its
attempt), the history of refresh attempts ever started (`attempts`; its
length counts `performDump` executions), and the `ensureFreshCache`
callers. -/
structure Sys where
  latestCache : Option CacheEntry
  refreshing : Bool
  refreshPromise : Option Nat
  attempts : List AttemptPhase
  callers : List Caller
deriving DecidableEq, Repr

/-- Replace caller `i`'s program counter, keeping its `ttl`. -/
def setPC (s : Sys) (i : Nat) (pc : CallerPC) : Sys :=
  match s.callers[i]? with
  | some c => { s with callers := s.callers.set i { ttl := c.ttl, pc := pc } }
  | none => s

/-- One synchronous segment of `ensureFreshCache(ttl)` starting at the top
of the `while (refreshing)` loop (lines 123-139): if `refreshing`, await the
current `refreshPromise` (awaiting `null` merely yields, landing back at the
loop top); else if `!needsRefresh(ttl)`, return; else set
`refreshing = true`, start `doRefresh()` (which runs synchronously into
`performDump` up to its first await), publish its promise in
`refreshPromise`, and await it.  All of this is one uninterruptible segment:
it contains no `await` before the caller suspends. -/
def runSegment (now : Int) (i : Nat) (s : Sys) : Sys :=
  match s.callers[i]? with
  | none => s
  | some c =>
    if s.refreshing then
      match s.refreshPromise with
      | some rid => setPC s i (CallerPC.awaitingJoin rid)
      | none => setPC s i CallerPC.ready
    else if ¬ needsRefresh now s.latestCache c.ttl then
      setPC s i (CallerPC.done (Except.ok s.latestCache))
    else
      { s with refreshing := true,
               refreshPromise := some s.attempts.length,
               attempts := s.attempts ++ [AttemptPhase.dumping],
               callers := s.callers.set i
                 { ttl := c.ttl, pc := CallerPC.awaitingOwn s.attempts.length } }

/-- `performDump` succeeded for attempt `rid`: `doRefresh` resumes at
`latestCache = await performDump()` — the new entry (file written at instant
`now`) is assigned to `latestCache` — and immediately enters
`cleanupOldDumps` (lines 115-116). -/
def publishFn (dir : String) (now : Int) (rid : Nat) (s : Sys) : Sys :=
  { s with latestCache := some (performDumpEntry dir now),
           attempts := s.attempts.set rid (AttemptPhase.cleaning (performDumpEntry dir now)) }

/-- Attempt `rid`'s `doRefresh` promise settles with outcome `out`.  The
`finally` callback (lines 133-136 / 147-150) runs first — `refreshing =
false; refreshPromise = null` — and then the promise all waiters hold
settles with `out`. -/
def settleFn (rid : Nat) (out : Except String Unit) (s : Sys) : Sys :=
  { s with refreshing := false,
           refreshPromise := none,
           attempts := s.attempts.set rid (AttemptPhase.settled out) }

/-- Caller `i` resumes from `await refreshPromise` once the awaited attempt
has settled.  A rejection propagates out of `ensureFreshCache` (there is no
try/catch inside it) in both the join and the own case; a fulfilled await
inside the `while` loop goes back to the loop test, and a fulfilled
`await refreshPromise` at the tail position returns. -/
def resumeFn (i : Nat) (s : Sys) : Sys :=
  match s.callers[i]? with
  | none => s
  | some c =>
    match c.pc with
    | CallerPC.awaitingJoin rid =>
      match s.attempts[rid]? with
      | some (AttemptPhase.settled (Except.error err)) =>
        setPC s i (CallerPC.done (Except.error err))
      | some (AttemptPhase.settled (Except.ok _)) => setPC s i CallerPC.ready
      | _ => s
    | CallerPC.awaitingOwn rid =>
      match s.attempts[rid]? with
      | some (AttemptPhase.settled (Except.error err)) =>
        setPC s i (CallerPC.done (Except.error err))
      | some (AttemptPhase.settled (Except.ok _)) =>
        setPC s i (CallerPC.done (Except.ok s.latestCache))
      | _ => s
    | _ => s

/-- `triggerRefresh(ttl)` (lines 141-151): if `refreshing || !needsRefresh(ttl)`
return immediately; otherwise take the refresh slot, start `doRefresh()`,
store its promise, and return without awaiting it (no caller is attached). -/
def triggerFn (now : Int) (ttl : ℚ) (s : Sys) : Sys :=
  if s.refreshing then s
  else if ¬ needsRefresh now s.latestCache ttl then s
  else
    { s with refreshing := true,
             refreshPromise := some s.attempts.length,
             attempts := s.attempts ++ [AttemptPhase.dumping] }

/-- Labels of the transition system. -/
inductive Label where
  | run (i : Nat)
  | dumpOk (rid : Nat)
  | dumpFail (rid : Nat) (err : String)
  | cleanupOk (rid : Nat)
  | cleanupFail (rid : Nat) (err : String)
  | resume (i : Nat)
  | trigger (ttl : ℚ)
deriving DecidableEq, Repr

/-- Whether a label is an external `triggerRefresh` call. -/
def Label.isTrigger : Label → Bool
  | Label.trigger _ => true
  | _ => false

/-- A label is the issuance of caller `i`'s `ensureFreshCache` call (its
first synchronous segment, which in JavaScript runs at the moment the async
function is invoked). -/
def isIssue (s : Sys) (l : Label) : Prop :=
  match l with
  | Label.run i => (s.callers[i]?.map Caller.pc) = some CallerPC.notStarted
  | _ => False

instance (s : Sys) (l : Label) : Decidable (isIssue s l) := by
  unfold isIssue
  cases l <;> infer_instance

/-- No attempt in `s` has settled yet. -/
def noSettled (s : Sys) : Prop := ∀ a ∈ s.attempts, a.isSettled = false

instance (s : Sys) : Decidable (noSettled s) := by
  unfold noSettled
  infer_instance

/-- One step of the coordinator.  Each constructor is one synchronous
JavaScript segment (between `await` points); dump/cleanup resolutions fold
the intermediate awaits of `performDump` / `cleanupOldDumps`, none of which
touch coordinator state. -/
inductive Step (dir : String) (now : Int) : Label → Sys → Sys → Prop where
  | run (i : Nat) (s : Sys) (c : Caller) (hc : s.callers[i]? = some c)
      (hpc : c.pc = CallerPC.notStarted ∨ c.pc = CallerPC.ready) :
      Step dir now (Label.run i) s (runSegment now i s)
  | dumpOk (rid : Nat) (s : Sys) (h : s.attempts[rid]? = some AttemptPhase.dumping) :
      Step dir now (Label.dumpOk rid) s (publishFn dir now rid s)
  | dumpFail (rid : Nat) (err : String) (s : Sys)
      (h : s.attempts[rid]? = some AttemptPhase.dumping) :
      Step dir now (Label.dumpFail rid err) s (settleFn rid (Except.error err) s)
  | cleanupOk (rid : Nat) (s : Sys) (e : CacheEntry)
      (h : s.attempts[rid]? = some (AttemptPhase.cleaning e)) :
      Step dir now (Label.cleanupOk rid) s (settleFn rid (Except.ok ()) s)
  | cleanupFail (rid : Nat) (err : String) (s : Sys) (e : CacheEntry)
      (h : s.attempts[rid]? = some (AttemptPhase.cleaning e)) :
      Step dir now (Label.cleanupFail rid err) s (settleFn rid (Except.error err) s)
  | resume (i : Nat) (s : Sys) (c : Caller) (rid : Nat) (out : Except String Unit)
      (hc : s.callers[i]? = some c)
      (hpc : c.pc = CallerPC.awaitingJoin rid ∨ c.pc = CallerPC.awaitingOwn rid)
      (ha : s.attempts[rid]? = some (AttemptPhase.settled out)) :
      Step dir now (Label.resume i) s (resumeFn i s)
  | trigger (ttl : ℚ) (s : Sys) :
      Step dir now (Label.trigger ttl) s (triggerFn now ttl s)

/-- Reachability by any sequence of coordinator steps. -/
inductive GReach (dir : String) (now : Int) : Sys → Sys → Prop where
  | refl (s : Sys) : GReach dir now s s
  | tail {s t u : Sys} {l : Label} :
      GReach dir now s t → Step dir now l t u → GReach dir now s u

/-- Reachability along an execution of `N` concurrent `ensureFreshCache`
calls: every issuance happens while no attempt has settled (the calls
overlap the single refresh episode — this is what "concurrent" means), and
no external `triggerRefresh` fires during the episode. -/
inductive ConcReach (dir : String) (now : Int) : Sys → Sys → Prop where
  | refl (s : Sys) : ConcReach dir now s s
  | tail {s t u : Sys} {l : Label} :
      ConcReach dir now s t → Step dir now l t u →
      (isIssue t l → noSettled t) → l.isTrigger = false → ConcReach dir now s u

/-- Initial state of a concurrent-`ensureFreshCache` episode: cache contents
`c0`, no refresh in flight, no attempt ever started, and one not-yet-issued
caller per entry of `ttls`. -/
def initSys (c0 : Option CacheEntry) (ttls : List ℚ) : Sys :=
  { latestCache := c0
    refreshing := false
    refreshPromise := none
    attempts := []
    callers := ttls.map (fun t => { ttl := t, pc := CallerPC.notStarted }) }

/-- Coordinator bookkeeping invariant, maintained by every step from a
quiescent initial state: the `refreshing` flag and the `refreshPromise`
handle are set and cleared together, the promised attempt is the unique
unsettled one, and an attempt that has reached its cleanup phase has
already published its entry as `latestCache`. -/
structure PublishInv (s : Sys) : Prop where
  flag_iff : s.refreshing = true ↔ s.refreshPromise.isSome = true
  promised : ∀ rid : Nat, s.refreshPromise = some rid →
      ∃ a, s.attempts[rid]? = some a ∧ a.isSettled = false
  unsettled_promised : ∀ (rid : Nat) (a : AttemptPhase),
      s.attempts[rid]? = some a → a.isSettled = false → s.refreshPromise = some rid
  cleaning_published : ∀ (rid : Nat) (e : CacheEntry),
      s.attempts[rid]? = some (AttemptPhase.cleaning e) → s.latestCache = some e

/-- Inductive invariant of one concurrent-`ensureFreshCache` episode started
from a stale state `c0` (all callers see `c0` as stale and carry a
nonnegative ttl). -/
structure EpInv (dir : String) (now : Int) (c0 : Option CacheEntry) (s : Sys) : Prop where
  len_le : s.attempts.length ≤ 1
  flag_iff : s.refreshing = true ↔ s.refreshPromise.isSome = true
  quiet : s.refreshing = false → ∀ a ∈ s.attempts, a.isSettled = true
  cache_dump : AttemptPhase.dumping ∈ s.attempts → s.latestCache = c0
  cache_clean : ∀ e, AttemptPhase.cleaning e ∈ s.attempts →
      e = performDumpEntry dir now ∧ s.latestCache = some e
  cache_ok : AttemptPhase.settled (Except.ok ()) ∈ s.attempts →
      s.latestCache = some (performDumpEntry dir now)
  cache_init : s.attempts = [] → s.latestCache = c0
  ttls_ok : ∀ c ∈ s.callers, 0 ≤ c.ttl ∧ needsRefresh now c0 c.ttl = true
  ne_callers : s.callers ≠ []
  ready_ok : ∀ c ∈ s.callers, c.pc = CallerPC.ready →
      AttemptPhase.settled (Except.ok ()) ∈ s.attempts
  done_ok : ∀ c ∈ s.callers, ∀ v, c.pc = CallerPC.done (Except.ok v) →
      v = some (performDumpEntry dir now) ∧ AttemptPhase.settled (Except.ok ()) ∈ s.attempts
  done_err : ∀ c ∈ s.callers, ∀ err, c.pc = CallerPC.done (Except.error err) →
      AttemptPhase.settled (Except.error err) ∈ s.attempts

/-! ### Helper lemmas about the retention pipeline -/

lemma list_len_le_one_eq {α : Type _} {l : List α} {i : Nat} {a : α}
    (hl : l.length ≤ 1) (h : l[i]? = some a) : l = [a] ∧ i = 0 := by
  match l, i with
  | [], i => simp at h
  | [x], 0 =>
    simp only [List.getElem?_cons_zero, Option.some.injEq] at h
    simp [h]
  | [x], i + 1 => simp at h
  | x :: y :: t, _ => simp at hl

lemma insertDumpDesc_perm (a : DumpFile) (l : List DumpFile) :
    (insertDumpDesc a l).Perm (a :: l) := by
  induction l with
  | nil => exact List.Perm.refl _
  | cons b t ih =>
    by_cases h : b.timestamp ≤ a.timestamp
    · simp [insertDumpDesc, h]
    · simp only [insertDumpDesc, if_neg h]
      exact (ih.cons b).trans (List.Perm.swap a b t)

lemma sortDumpsDesc_perm (l : List DumpFile) : (sortDumpsDesc l).Perm l := by
  induction l with
  | nil => exact List.Perm.refl _
  | cons x xs ih => exact (insertDumpDesc_perm x (sortDumpsDesc xs)).trans (ih.cons x)

lemma insertDumpDesc_sorted {a : DumpFile} {l : List DumpFile}
    (h : l.Pairwise (fun x y => y.timestamp ≤ x.timestamp)) :
    (insertDumpDesc a l).Pairwise (fun x y => y.timestamp ≤ x.timestamp) := by
  induction l with
  | nil => simp [insertDumpDesc]
  | cons b t ih =>
    rcases List.pairwise_cons.mp h with ⟨hb, ht⟩
    by_cases hba : b.timestamp ≤ a.timestamp
    · simp only [insertDumpDesc, if_pos hba]
      refine List.pairwise_cons.mpr ⟨?_, h⟩
      intro x hx
      rcases List.mem_cons.mp hx with rfl | hx
      · exact hba
      · exact (hb x hx).trans hba
    · simp only [insertDumpDesc, if_neg hba]
      refine List.pairwise_cons.mpr ⟨?_, ih ht⟩
      intro x hx
      rcases List.mem_cons.mp ((insertDumpDesc_perm a t).mem_iff.mp hx) with rfl | hx
      · exact le_of_lt (lt_of_not_le hba)
      · exact hb x hx

lemma sortDumpsDesc_sorted (l : List DumpFile) :
    (sortDumpsDesc l).Pairwise (fun x y => y.timestamp ≤ x.timestamp) := by
  induction l with
  | nil => simp [sortDumpsDesc]
  | cons x xs ih => exact insertDumpDesc_sorted ih

lemma sortDumpsDesc_strict {l : List DumpFile} (hnd : (l.map (·.timestamp)).Nodup) :
    (sortDumpsDesc l).Pairwise (fun x y => y.timestamp < x.timestamp) := by
  have hs := sortDumpsDesc_sorted l
  have hnd' : ((sortDumpsDesc l).map (·.timestamp)).Nodup :=
    (((sortDumpsDesc_perm l).map _).nodup_iff).mpr hnd
  have hne : (sortDumpsDesc l).Pairwise (fun x y => x.timestamp ≠ y.timestamp) :=
    List.pairwise_map.mp hnd'
  exact (hs.and hne).imp (fun h => lt_of_le_of_ne h.1 (fun he => h.2 he.symm))

lemma countP_ge_of_mem_drop {l : List DumpFile}
    (hl : l.Pairwise (fun x y => y.timestamp < x.timestamp)) :
    ∀ {k : Nat} {d : DumpFile}, d ∈ l.drop k →
      k ≤ l.countP (fun y => decide (d.timestamp < y.timestamp)) := by
  induction hl with
  | nil =>
    intro k d hd
    simp at hd
  | @cons a t ha ht ih =>
    intro k d hd
    cases k with
    | zero => exact Nat.zero_le _
    | succ k =>
      have hd' : d ∈ t.drop k := by simpa using hd
      have hdt : d ∈ t := List.mem_of_mem_drop hd'
      have h1 := ih hd'
      have h2 : (fun y => decide (d.timestamp < y.timestamp)) a = true :=
        decide_eq_true (ha d hdt)
      rw [List.countP_cons]
      simp only [h2, if_true]
      omega

lemma countP_lt_of_mem_take {l : List DumpFile}
    (hl : l.Pairwise (fun x y => y.timestamp < x.timestamp)) :
    ∀ {k : Nat} {d : DumpFile}, d ∈ l.take k →
      l.countP (fun y => decide (d.timestamp < y.timestamp)) < k := by
  induction hl with
  | nil =>
    intro k d hd
    simp at hd
  | @cons a t ha ht ih =>
    intro k d hd
    cases k with
    | zero => simp at hd
    | succ k =>
      rw [List.take_succ_cons] at hd
      rcases List.mem_cons.mp hd with rfl | hd'
      · have h0 : t.countP (fun y => decide (d.timestamp < y.timestamp)) = 0 :=
          List.countP_eq_zero.mpr (fun y hy => by
            simp only [decide_eq_true_eq]
            exact not_lt.mpr (le_of_lt (ha y hy)))
        rw [List.countP_cons, h0]
        simp [lt_irrefl]
      · have h1 := ih hd'
        rw [List.countP_cons]
        have h2 : (if decide (d.timestamp < a.timestamp) = true then 1 else 0) ≤ 1 := by
          split <;> omega
        omega

lemma mem_sorted_drop_iff (dumps : List DumpFile) (k : Nat)
    (hnd : (dumps.map (·.timestamp)).Nodup) (d : DumpFile) :
    d ∈ (sortDumpsDesc dumps).drop k ↔
      d ∈ dumps ∧ k ≤ dumps.countP (fun y => decide (d.timestamp < y.timestamp)) := by
  have hp := sortDumpsDesc_perm dumps
  have hst := sortDumpsDesc_strict hnd
  have hcnt := hp.countP_eq (fun y => decide (d.timestamp < y.timestamp))
  constructor
  · intro hd
    exact ⟨hp.mem_iff.mp (List.mem_of_mem_drop hd), hcnt ▸ countP_ge_of_mem_drop hst hd⟩
  · rintro ⟨hmem, hk⟩
    have hl : d ∈ sortDumpsDesc dumps := hp.mem_iff.mpr hmem
    rw [← List.take_append_drop k (sortDumpsDesc dumps)] at hl
    rcases List.mem_append.mp hl with h | h
    · have := countP_lt_of_mem_take hst h
      omega
    · exact h

lemma mem_sorted_take_iff (dumps : List DumpFile) (k : Nat)
    (hnd : (dumps.map (·.timestamp)).Nodup) (d : DumpFile) :
    d ∈ (sortDumpsDesc dumps).take k ↔
      d ∈ dumps ∧ dumps.countP (fun y => decide (d.timestamp < y.timestamp)) < k := by
  have hp := sortDumpsDesc_perm dumps
  have hst := sortDumpsDesc_strict hnd
  have hcnt := hp.countP_eq (fun y => decide (d.timestamp < y.timestamp))
  constructor
  · intro hd
    exact ⟨hp.mem_iff.mp (List.take_subset k _ hd), hcnt ▸ countP_lt_of_mem_take hst hd⟩
  · rintro ⟨hmem, hk⟩
    have hl : d ∈ sortDumpsDesc dumps := hp.mem_iff.mpr hmem
    rw [← List.take_append_drop k (sortDumpsDesc dumps)] at hl
    rcases List.mem_append.mp hl with h | h
    · exact h
    · have := countP_ge_of_mem_drop hst h
      omega

lemma rmSeq_fail (rmFails : String → Bool) (q : String) (hq : rmFails q = true) :
    ∀ (pre : List String), ∀ (post store : List String), (∀ p ∈ pre, rmFails p = false) →
      rmSeq rmFails (pre ++ q :: post) store =
        (Except.error ("rm failed: " ++ q), pre.foldl (fun st p => st.erase p) store) := by
  intro pre
  induction pre with
  | nil =>
    intro post store _
    simp [rmSeq, hq]
  | cons p rest ih =>
    intro post store h
    have hp : rmFails p = false := h p (List.mem_cons_self p rest)
    simp only [List.cons_append, rmSeq, hp, Bool.false_eq_true, if_false, List.foldl_cons]
    exact ih post (store.erase p) (fun r hr => h r (List.mem_cons_of_mem p hr))

lemma mem_foldl_erase : ∀ (pre : List String) (store : List String) (p : String),
    p ∈ store → p ∉ pre → p ∈ pre.foldl (fun st q => st.erase q) store := by
  intro pre
  induction pre with
  | nil =>
    intro store p hp _
    simpa using hp
  | cons a t ih =>
    intro store p hp hnp
    rw [List.foldl_cons]
    have hpa : p ≠ a := fun h => hnp (h ▸ List.mem_cons_self a t)
    exact ih _ p ((List.mem_erase_of_ne hpa).mpr hp) (fun h => hnp (List.mem_cons_of_mem a h))

/-! ### Claim theorems: retention manager and staleness -/

/-- C4: one pruning pass of `cleanupOldDumps` deletes exactly the artifacts
outside the `keep` most recent (those with at least `keep` strictly more
recent artifacts) and keeps exactly the `keep` most recent; when the store
holds at most `keep` artifacts nothing is deleted. -/
theorem prune_keeps_k_most_recent (files : List String) (k : Nat)
    (hnd : ((dumpEntriesOf files).map (·.timestamp)).Nodup) :
    (∀ d, d ∈ cleanupToDelete files k ↔ d ∈ dumpEntriesOf files ∧
        k ≤ (dumpEntriesOf files).countP (fun y => decide (d.timestamp < y.timestamp)))
    ∧ (∀ d, d ∈ cleanupKept files k ↔ d ∈ dumpEntriesOf files ∧
        (dumpEntriesOf files).countP (fun y => decide (d.timestamp < y.timestamp)) < k)
    ∧ ((dumpEntriesOf files).length ≤ k → cleanupToDelete files k = []) := by
  refine ⟨fun d => ?_, fun d => ?_, fun hle => ?_⟩
  · simpa [cleanupToDelete, dumpFilesOf] using mem_sorted_drop_iff (dumpEntriesOf files) k hnd d
  · simpa [cleanupKept, dumpFilesOf] using mem_sorted_take_iff (dumpEntriesOf files) k hnd d
  · have hlen : (sortDumpsDesc (dumpEntriesOf files)).length = (dumpEntriesOf files).length :=
      (sortDumpsDesc_perm _).length_eq
    simp only [cleanupToDelete, dumpFilesOf]
    rw [List.drop_eq_nil_iff]
    omega

/-- Witness for C4 on a concrete store. -/
theorem prune_keeps_k_most_recent_witness :
    (⟨"dump-1.tar.gz", 1⟩ : DumpFile) ∈
        cleanupToDelete ["dump-1.tar.gz", "dump-3.tar.gz", "dump-2.tar.gz"] 1
    ∧ (⟨"dump-3.tar.gz", 3⟩ : DumpFile) ∈
        cleanupKept ["dump-1.tar.gz", "dump-3.tar.gz", "dump-2.tar.gz"] 1
    ∧ cleanupToDelete ["dump-1.tar.gz", "dump-3.tar.gz", "dump-2.tar.gz"] 5 = [] := by
  have h := prune_keeps_k_most_recent ["dump-1.tar.gz", "dump-3.tar.gz", "dump-2.tar.gz"] 1
    (by decide)
  have h5 := prune_keeps_k_most_recent ["dump-1.tar.gz", "dump-3.tar.gz", "dump-2.tar.gz"] 5
    (by decide)
  exact ⟨(h.1 _).mpr (by decide), (h.2.1 _).mpr (by decide), h5.2.2 (by decide)⟩

/-- C6: `needsRefresh(ttl)` is true iff no entry exists or the entry is
strictly older than `ttl` seconds (`now - createdAt > ttl·1000` in
milliseconds); an entry exactly `ttl` seconds old is not stale.  The query
is a pure function of `(now, latestCache, ttl)` — it mutates nothing by
construction. -/
theorem needsRefresh_iff (now : Int) (c : Option CacheEntry) (ttl : ℚ) :
    (needsRefresh now c ttl = true ↔
      c = none ∨ ∃ e, c = some e ∧ (now : ℚ) - (e.timestamp : ℚ) > ttl * 1000)
    ∧ (∀ e, c = some e → (now : ℚ) - (e.timestamp : ℚ) = ttl * 1000 →
        needsRefresh now c ttl = false) := by
  constructor
  · cases c with
    | none => simp [needsRefresh]
    | some e =>
      simp only [needsRefresh, getCacheAgeSeconds, decide_eq_true_eq, gt_iff_lt,
        Option.some.injEq, reduceCtorEq, false_or]
      rw [lt_div_iff₀ (by norm_num : (0:ℚ) < 1000)]
      constructor
      · intro h
        exact ⟨e, rfl, h⟩
      · rintro ⟨e', he', h⟩
        cases he'
        exact h
  · intro e hce heq
    subst hce
    simp only [needsRefresh, getCacheAgeSeconds, heq]
    have h1000 : (ttl * 1000) / 1000 = ttl := by
      field_simp
    rw [h1000]
    simp [lt_irrefl]

/-- Witness for C6: an entry exactly `ttl = 1` second old is not stale. -/
theorem needsRefresh_iff_witness :
    needsRefresh 2000 (some ⟨"./cache/dump-1000.tar.gz", 1000⟩) 1 = false :=
  (needsRefresh_iff 2000 (some ⟨"./cache/dump-1000.tar.gz", 1000⟩) 1).2
    ⟨"./cache/dump-1000.tar.gz", 1000⟩ rfl (by norm_num)

/-- C7: `triggerRefresh(ttl)` is a no-op (identical state, no attempt
started) when a refresh is in flight or the cache is fresh; otherwise it
starts exactly one attempt (one new `doRefresh`, flag and promise set) and
returns at once; in every case it attaches no waiter (`callers` untouched),
so a failure of the triggered refresh is never raised to the caller. -/
theorem triggerRefresh_spec (now : Int) (ttl : ℚ) (s : Sys) :
    ((s.refreshing = true ∨ needsRefresh now s.latestCache ttl = false) →
        triggerFn now ttl s = s)
    ∧ (s.refreshing = false → needsRefresh now s.latestCache ttl = true →
        triggerFn now ttl s =
          { s with refreshing := true,
                   refreshPromise := some s.attempts.length,
                   attempts := s.attempts ++ [AttemptPhase.dumping] })
    ∧ (triggerFn now ttl s).callers = s.callers := by
  refine ⟨?_, ?_, ?_⟩
  · rintro (h | h)
    · simp [triggerFn, h]
    · by_cases hr : s.refreshing = true
      · simp [triggerFn, hr]
      · simp [triggerFn, hr, h]
  · intro hr hn
    simp [triggerFn, hr, hn]
  · by_cases hr : s.refreshing = true
    · simp [triggerFn, hr]
    · by_cases hn : needsRefresh now s.latestCache ttl = true
      · simp [triggerFn, hr, hn]
      · simp [triggerFn, hr, hn]

/-- Witness for C7: a trigger on a stale, idle coordinator starts one
attempt; a trigger while refreshing is a no-op. -/
theorem triggerRefresh_spec_witness :
    triggerFn 0 0 (initSys none [])
      = { initSys none [] with
          refreshing := true
          refreshPromise := some 0
          attempts := [AttemptPhase.dumping] }
    ∧ triggerFn 0 0 { initSys none [] with refreshing := true }
      = { initSys none [] with refreshing := true } := by
  constructor
  · exact (triggerRefresh_spec 0 0 (initSys none [])).2.1 rfl (by decide)
  · exact (triggerRefresh_spec 0 0 _).1 (Or.inl rfl)

/-! ### Claim theorems: retention failure behaviour (C5) -/

/-- Counterexample to C5 as claimed: with three dumps, `keepCount = 1`, and
`rm` failing on `dump-2.tar.gz`, the pruning pass aborts (the stale
`dump-1.tar.gz` survives in the store) and the error propagates out of
`cleanupOldDumps`; through `doRefresh` it makes a refresh whose `pg_dump`
succeeded report failure. -/
theorem cleanup_failure_claim_cex :
    (cleanupOldDumps 1 (fun f => decide (f = "dump-2.tar.gz"))
        ["dump-1.tar.gz", "dump-2.tar.gz", "dump-3.tar.gz"]).1 =
      Except.error "rm failed: dump-2.tar.gz"
    ∧ "dump-1.tar.gz" ∈ (cleanupOldDumps 1 (fun f => decide (f = "dump-2.tar.gz"))
        ["dump-1.tar.gz", "dump-2.tar.gz", "dump-3.tar.gz"]).2
    ∧ (⟨"dump-1.tar.gz", 1⟩ : DumpFile) ∈ cleanupToDelete
        ["dump-1.tar.gz", "dump-2.tar.gz", "dump-3.tar.gz"] 1
    ∧ (doRefreshModel "./cache" 1 (fun f => decide (f = "dump-2.tar.gz")) none (Except.ok 4)
        ["dump-1.tar.gz", "dump-2.tar.gz", "dump-3.tar.gz"]).1 =
      Except.error "rm failed: dump-2.tar.gz" := by
  refine ⟨?_, ?_, ?_, ?_⟩ <;> decide

/-- C5 amended: a failing `rm` for one stale file aborts the rest of the
pruning pass — the deletion loop stops at the first failing file, every
file not already deleted (in particular all later stale files) stays in the
store — and the error propagates: it becomes the outcome of
`cleanupOldDumps` and hence (via `doRefresh`, which has no handler around
the cleanup) the outcome of the whole refresh, even though the new dump was
produced and stays published. -/
theorem cleanup_failure_spec (keep : Nat) (rmFails : String → Bool) (files : List String)
    (pre post : List String) (q : String)
    (hsplit : (cleanupToDelete files keep).map (·.file) = pre ++ q :: post)
    (hpre : ∀ p ∈ pre, rmFails p = false) (hq : rmFails q = true) :
    (cleanupOldDumps keep rmFails files).1 = Except.error ("rm failed: " ++ q)
    ∧ (∀ p, p ∈ files → p ∉ pre → p ∈ (cleanupOldDumps keep rmFails files).2)
    ∧ (∀ (dir : String) (c0 : Option CacheEntry) (t : Int) (gs : List String),
        doRefreshModel dir keep rmFails c0 (Except.ok t) gs =
          ((cleanupOldDumps keep rmFails (gs ++ [dumpFileName t])).1,
           some (performDumpEntry dir t),
           (cleanupOldDumps keep rmFails (gs ++ [dumpFileName t])).2)) := by
  have hrun : cleanupOldDumps keep rmFails files =
      (Except.error ("rm failed: " ++ q), pre.foldl (fun st p => st.erase p) files) := by
    unfold cleanupOldDumps
    rw [hsplit]
    exact rmSeq_fail rmFails q hq pre post files hpre
  refine ⟨by rw [hrun], ?_, ?_⟩
  · intro p hp hnp
    rw [hrun]
    exact mem_foldl_erase pre files p hp hnp
  · intro dir c0 t gs
    rfl

/-- Witness for the amended C5. -/
theorem cleanup_failure_spec_witness :
    (cleanupOldDumps 1 (fun f => decide (f = "dump-2.tar.gz"))
        ["dump-1.tar.gz", "dump-2.tar.gz", "dump-3.tar.gz"]).1 =
      Except.error ("rm failed: " ++ "dump-2.tar.gz")
    ∧ "dump-1.tar.gz" ∈ (cleanupOldDumps 1 (fun f => decide (f = "dump-2.tar.gz"))
        ["dump-1.tar.gz", "dump-2.tar.gz", "dump-3.tar.gz"]).2 := by
  have h := cleanup_failure_spec 1 (fun f => decide (f = "dump-2.tar.gz"))
    ["dump-1.tar.gz", "dump-2.tar.gz", "dump-3.tar.gz"]
    [] ["dump-1.tar.gz"] "dump-2.tar.gz" (by decide) (by decide) (by decide)
  exact ⟨h.1, h.2.1 "dump-1.tar.gz" (by decide) (by decide)⟩

/-! ### Field-preservation lemmas for the transition functions -/

lemma setPC_core (s : Sys) (i : Nat) (pc : CallerPC) :
    (setPC s i pc).latestCache = s.latestCache ∧ (setPC s i pc).refreshing = s.refreshing ∧
    (setPC s i pc).refreshPromise = s.refreshPromise ∧ (setPC s i pc).attempts = s.attempts := by
  unfold setPC
  cases s.callers[i]? <;> exact ⟨rfl, rfl, rfl, rfl⟩

lemma setPC_get (s : Sys) (i : Nat) (pc : CallerPC) {c : Caller} (hc : s.callers[i]? = some c) :
    (setPC s i pc).callers[i]? = some { ttl := c.ttl, pc := pc } := by
  unfold setPC
  rw [hc]
  simp [List.getElem?_set_self', hc]

lemma resumeFn_core (i : Nat) (s : Sys) :
    (resumeFn i s).latestCache = s.latestCache ∧ (resumeFn i s).refreshing = s.refreshing ∧
    (resumeFn i s).refreshPromise = s.refreshPromise ∧ (resumeFn i s).attempts = s.attempts := by
  unfold resumeFn
  repeat' split
  all_goals first | exact ⟨rfl, rfl, rfl, rfl⟩ | exact setPC_core _ _ _

lemma runSegment_latestCache (now : Int) (i : Nat) (s : Sys) :
    (runSegment now i s).latestCache = s.latestCache := by
  unfold runSegment
  repeat' split
  all_goals first | rfl | exact (setPC_core _ _ _).1

lemma triggerFn_latestCache (now : Int) (ttl : ℚ) (s : Sys) :
    (triggerFn now ttl s).latestCache = s.latestCache := by
  unfold triggerFn
  repeat' split
  all_goals rfl

/-! ### The publication invariant and its preservation -/

lemma publishInv_init {s : Sys} (h1 : s.refreshing = false) (h2 : s.refreshPromise = none)
    (h3 : s.attempts = []) : PublishInv s := by
  constructor
  · simp [h1, h2]
  · intro rid hr
    rw [h2] at hr
    exact absurd hr (by simp)
  · intro rid a ha
    rw [h3] at ha
    simp at ha
  · intro rid e ha
    rw [h3] at ha
    simp at ha

lemma publishInv_of_fields {s t : Sys} (h : PublishInv s)
    (hl : t.latestCache = s.latestCache) (hr : t.refreshing = s.refreshing)
    (hp : t.refreshPromise = s.refreshPromise) (ha : t.attempts = s.attempts) :
    PublishInv t := by
  constructor
  · rw [hr, hp]
    exact h.flag_iff
  · intro rid hrid
    rw [hp] at hrid
    rw [ha]
    exact h.promised rid hrid
  · intro rid a hrid hset
    rw [ha] at hrid
    rw [hp]
    exact h.unsettled_promised rid a hrid hset
  · intro rid e hrid
    rw [ha] at hrid
    rw [hl]
    exact h.cleaning_published rid e hrid

/-- Starting a fresh attempt (the shared shape of the start branches of
`ensureFreshCache` and `triggerRefresh`) preserves the publication
invariant, whatever happens to the caller list. -/
lemma publishInv_start {s : Sys} (hinv : PublishInv s) (hr : s.refreshing = false)
    (cs : List Caller) :
    PublishInv { s with refreshing := true, refreshPromise := some s.attempts.length,
                        attempts := s.attempts ++ [AttemptPhase.dumping], callers := cs } := by
  have hnone : s.refreshPromise = none := by
    cases hp : s.refreshPromise with
    | none => rfl
    | some rid =>
      have := hinv.flag_iff.mpr (by simp [hp])
      rw [this] at hr
      exact absurd hr (by simp)
  constructor
  · simp
  · intro rid hrid
    simp only [Option.some.injEq] at hrid
    subst hrid
    exact ⟨AttemptPhase.dumping, List.getElem?_concat_length _ _, rfl⟩
  · intro rid a hrid hset
    rcases Nat.lt_or_ge rid s.attempts.length with hlt | hge
    · rw [List.getElem?_append] at hrid
      rw [if_pos hlt] at hrid
      have := hinv.unsettled_promised rid a hrid hset
      rw [hnone] at this
      exact absurd this (by simp)
    · rcases Nat.eq_or_lt_of_le hge with heq | hgt
      · simp [heq.symm]
      · rw [List.getElem?_append] at hrid
        rw [if_neg (by omega)] at hrid
        have : rid - s.attempts.length ≥ 1 := by omega
        rw [List.getElem?_eq_none (by simpa using this)] at hrid
        exact absurd hrid (by simp)
  · intro rid e hrid
    rcases Nat.lt_or_ge rid s.attempts.length with hlt | hge
    · rw [List.getElem?_append] at hrid
      rw [if_pos hlt] at hrid
      have := hinv.unsettled_promised rid _ hrid rfl
      rw [hnone] at this
      exact absurd this (by simp)
    · rcases Nat.eq_or_lt_of_le hge with heq | hgt
      · rw [List.getElem?_append] at hrid
        rw [if_neg (by omega)] at hrid
        rw [← heq] at hrid
        simp at hrid
      · rw [List.getElem?_append] at hrid
        rw [if_neg (by omega)] at hrid
        have : rid - s.attempts.length ≥ 1 := by omega
        rw [List.getElem?_eq_none (by simpa using this)] at hrid
        exact absurd hrid (by simp)

lemma publishInv_runSegment {now : Int} {i : Nat} {s : Sys} (hinv : PublishInv s) :
    PublishInv (runSegment now i s) := by
  unfold runSegment
  split
  · exact hinv
  · split
    · split
      · exact publishInv_of_fields hinv (setPC_core _ _ _).1 (setPC_core _ _ _).2.1
          (setPC_core _ _ _).2.2.1 (setPC_core _ _ _).2.2.2
      · exact publishInv_of_fields hinv (setPC_core _ _ _).1 (setPC_core _ _ _).2.1
          (setPC_core _ _ _).2.2.1 (setPC_core _ _ _).2.2.2
    · split
      · exact publishInv_of_fields hinv (setPC_core _ _ _).1 (setPC_core _ _ _).2.1
          (setPC_core _ _ _).2.2.1 (setPC_core _ _ _).2.2.2
      · rename_i hr hn
        exact publishInv_start hinv (by simpa using hr) _

lemma publishInv_triggerFn {now : Int} {ttl : ℚ} {s : Sys} (hinv : PublishInv s) :
    PublishInv (triggerFn now ttl s) := by
  unfold triggerFn
  split
  · exact hinv
  · split
    · exact hinv
    · rename_i hr hn
      exact publishInv_start hinv (by simpa using hr) _

lemma publishInv_publishFn {dir : String} {now : Int} {rid : Nat} {s : Sys}
    (hinv : PublishInv s) (h : s.attempts[rid]? = some AttemptPhase.dumping) :
    PublishInv (publishFn dir now rid s) := by
  have hpr : s.refreshPromise = some rid := hinv.unsettled_promised rid _ h rfl
  constructor
  · exact hinv.flag_iff
  · intro rid' hr'
    have hr'' : s.refreshPromise = some rid' := hr'
    have heq : rid = rid' := Option.some.inj (hpr.symm.trans hr'')
    subst heq
    refine ⟨AttemptPhase.cleaning (performDumpEntry dir now), ?_, rfl⟩
    show (s.attempts.set rid _)[rid]? = _
    rw [List.getElem?_set_self', h]
    rfl
  · intro rid' a' ha' hset'
    by_cases he : rid = rid'
    · subst he
      exact hpr
    · have hold : s.attempts[rid']? = some a' := by
        have h3 : (s.attempts.set rid (AttemptPhase.cleaning (performDumpEntry dir now)))[rid']? =
            some a' := ha'
        rwa [List.getElem?_set_ne he] at h3
      exact hinv.unsettled_promised rid' a' hold hset'
  · intro rid' e ha'
    by_cases he : rid = rid'
    · subst he
      have h3 : (s.attempts.set rid (AttemptPhase.cleaning (performDumpEntry dir now)))[rid]? =
          some (AttemptPhase.cleaning e) := ha'
      rw [List.getElem?_set_self', h] at h3
      have h4 : AttemptPhase.cleaning (performDumpEntry dir now) = AttemptPhase.cleaning e := by
        simpa using h3
      have h5 : performDumpEntry dir now = e := by
        injection h4
      show some (performDumpEntry dir now) = some e
      rw [h5]
    · have hold : s.attempts[rid']? = some (AttemptPhase.cleaning e) := by
        have h3 : (s.attempts.set rid (AttemptPhase.cleaning (performDumpEntry dir now)))[rid']? =
            some (AttemptPhase.cleaning e) := ha'
        rwa [List.getElem?_set_ne he] at h3
      have h6 := hinv.unsettled_promised rid' _ hold rfl
      rw [hpr] at h6
      exact absurd (Option.some.inj h6) he

lemma publishInv_settleFn {s : Sys} (hinv : PublishInv s) {rid : Nat} {out : Except String Unit}
    {a : AttemptPhase} (h : s.attempts[rid]? = some a) (hset : a.isSettled = false) :
    PublishInv (settleFn rid out s) := by
  have hpr : s.refreshPromise = some rid := hinv.unsettled_promised rid a h hset
  constructor
  · simp [settleFn]
  · intro rid' hr'
    have h2 : (none : Option Nat) = some rid' := hr'
    exact absurd h2 (by simp)
  · intro rid' a' ha' hset'
    by_cases he : rid = rid'
    · subst he
      have h3 : (s.attempts.set rid (AttemptPhase.settled out))[rid]? = some a' := ha'
      rw [List.getElem?_set_self', h] at h3
      have h4 : AttemptPhase.settled out = a' := by simpa using h3
      rw [← h4] at hset'
      simp [AttemptPhase.isSettled] at hset'
    · have hold : s.attempts[rid']? = some a' := by
        have h3 : (s.attempts.set rid (AttemptPhase.settled out))[rid']? = some a' := ha'
        rwa [List.getElem?_set_ne he] at h3
      have h6 := hinv.unsettled_promised rid' a' hold hset'
      rw [hpr] at h6
      exact absurd (Option.some.inj h6) he
  · intro rid' e ha'
    by_cases he : rid = rid'
    · subst he
      have h3 : (s.attempts.set rid (AttemptPhase.settled out))[rid]? =
          some (AttemptPhase.cleaning e) := ha'
      rw [List.getElem?_set_self', h] at h3
      simp at h3
    · have hold : s.attempts[rid']? = some (AttemptPhase.cleaning e) := by
        have h3 : (s.attempts.set rid (AttemptPhase.settled out))[rid']? =
            some (AttemptPhase.cleaning e) := ha'
        rwa [List.getElem?_set_ne he] at h3
      exact hinv.cleaning_published rid' e hold

lemma publishInv_step {dir : String} {now : Int} {l : Label} {s t : Sys}
    (hinv : PublishInv s) (hstep : Step dir now l s t) : PublishInv t := by
  cases hstep with
  | run i s c hc hpc => exact publishInv_runSegment hinv
  | dumpOk rid s h => exact publishInv_publishFn hinv h
  | dumpFail rid err s h => exact publishInv_settleFn hinv h rfl
  | cleanupOk rid s e h => exact publishInv_settleFn hinv h rfl
  | cleanupFail rid err s e h => exact publishInv_settleFn hinv h rfl
  | resume i s c rid out hc hpc ha =>
    exact publishInv_of_fields hinv (resumeFn_core _ _).1 (resumeFn_core _ _).2.1
      (resumeFn_core _ _).2.2.1 (resumeFn_core _ _).2.2.2
  | trigger ttl s => exact publishInv_triggerFn hinv

lemma publishInv_reach {dir : String} {now : Int} {s0 s : Sys} (h0 : PublishInv s0)
    (hr : GReach dir now s0 s) : PublishInv s := by
  induction hr with
  | refl => exact h0
  | tail hr hstep ih => exact publishInv_step ih hstep

/-! ### Helper lemmas for the single-flight episode invariant -/

lemma setPC_callers_mem {s : Sys} {i : Nat} {pc : CallerPC} {c' : Caller}
    (h : c' ∈ (setPC s i pc).callers) :
    c' ∈ s.callers ∨ ∃ c ∈ s.callers, c' = ⟨c.ttl, pc⟩ := by
  unfold setPC at h
  cases hcs : s.callers[i]? with
  | none =>
    rw [hcs] at h
    exact Or.inl h
  | some c =>
    rw [hcs] at h
    rcases List.mem_or_eq_of_mem_set h with h | h
    · exact Or.inl h
    · exact Or.inr ⟨c, List.getElem?_mem hcs, h⟩

lemma setPC_callers_ne {s : Sys} {i : Nat} {pc : CallerPC} (h : s.callers ≠ []) :
    (setPC s i pc).callers ≠ [] := by
  unfold setPC
  cases hcs : s.callers[i]? with
  | none => exact h
  | some c =>
    intro he
    apply h
    have hlen := congrArg List.length he
    rw [List.length_set] at hlen
    exact List.eq_nil_of_length_eq_zero hlen

lemma isDone_exists {c : Caller} (h : c.pc.isDone = true) :
    ∃ out, c.pc = CallerPC.done out := by
  cases hpc : c.pc with
  | done out => exact ⟨out, rfl⟩
  | notStarted =>
    rw [hpc] at h
    simp [CallerPC.isDone] at h
  | ready =>
    rw [hpc] at h
    simp [CallerPC.isDone] at h
  | awaitingJoin rid =>
    rw [hpc] at h
    simp [CallerPC.isDone] at h
  | awaitingOwn rid =>
    rw [hpc] at h
    simp [CallerPC.isDone] at h

lemma epInv_init {dir : String} {now : Int} {c0 : Option CacheEntry} {ttls : List ℚ}
    (hne : ttls ≠ [])
    (hstale : ∀ t ∈ ttls, 0 ≤ t ∧ needsRefresh now c0 t = true) :
    EpInv dir now c0 (initSys c0 ttls) := by
  constructor
  · simp [initSys]
  · simp [initSys]
  · intro _ a ha
    simp [initSys] at ha
  · intro h
    simp [initSys] at h
  · intro e he
    simp [initSys] at he
  · intro h
    simp [initSys] at h
  · intro _
    rfl
  · intro c hc
    simp only [initSys, List.mem_map] at hc
    rcases hc with ⟨t, ht, rfl⟩
    exact hstale t ht
  · intro h
    exact hne (List.map_eq_nil_iff.mp h)
  · intro c hc hr
    simp only [initSys, List.mem_map] at hc
    rcases hc with ⟨t, ht, rfl⟩
    simp at hr
  · intro c hc v hd
    simp only [initSys, List.mem_map] at hc
    rcases hc with ⟨t, ht, rfl⟩
    simp at hd
  · intro c hc err hd
    simp only [initSys, List.mem_map] at hc
    rcases hc with ⟨t, ht, rfl⟩
    simp at hd

/-- Updating one caller's program counter preserves the episode invariant
provided the new counter value carries its own obligations. -/
lemma epInv_setPC {dir : String} {now : Int} {c0 : Option CacheEntry} {s : Sys}
    (hinv : EpInv dir now c0 s) {i : Nat} {pc : CallerPC}
    (hkr : pc = CallerPC.ready → AttemptPhase.settled (Except.ok ()) ∈ s.attempts)
    (hko : ∀ v, pc = CallerPC.done (Except.ok v) →
        v = some (performDumpEntry dir now) ∧ AttemptPhase.settled (Except.ok ()) ∈ s.attempts)
    (hke : ∀ err, pc = CallerPC.done (Except.error err) →
        AttemptPhase.settled (Except.error err) ∈ s.attempts) :
    EpInv dir now c0 (setPC s i pc) := by
  have hcore := setPC_core s i pc
  constructor
  · rw [hcore.2.2.2]
    exact hinv.len_le
  · rw [hcore.2.1, hcore.2.2.1]
    exact hinv.flag_iff
  · rw [hcore.2.1, hcore.2.2.2]
    exact hinv.quiet
  · rw [hcore.2.2.2, hcore.1]
    exact hinv.cache_dump
  · rw [hcore.2.2.2, hcore.1]
    exact hinv.cache_clean
  · rw [hcore.2.2.2, hcore.1]
    exact hinv.cache_ok
  · rw [hcore.2.2.2, hcore.1]
    exact hinv.cache_init
  · intro c' hc'
    rcases setPC_callers_mem hc' with h | ⟨c, hcm, rfl⟩
    · exact hinv.ttls_ok c' h
    · exact hinv.ttls_ok c hcm
  · exact setPC_callers_ne hinv.ne_callers
  · intro c' hc' hr
    rw [hcore.2.2.2]
    rcases setPC_callers_mem hc' with h | ⟨c, hcm, rfl⟩
    · exact hinv.ready_ok c' h hr
    · exact hkr hr
  · intro c' hc' v hd
    rw [hcore.2.2.2]
    rcases setPC_callers_mem hc' with h | ⟨c, hcm, rfl⟩
    · exact hinv.done_ok c' h v hd
    · exact hko v hd
  · intro c' hc' err hd
    rw [hcore.2.2.2]
    rcases setPC_callers_mem hc' with h | ⟨c, hcm, rfl⟩
    · exact hinv.done_err c' h err hd
    · exact hke err hd

/-- During an episode, an issuance (first segment of a call) that finds the
flag down can only happen before any attempt exists. -/
lemma epInv_issue_attempts_nil {dir : String} {now : Int} {c0 : Option CacheEntry} {s : Sys}
    (hinv : EpInv dir now c0 s) (hrf : s.refreshing = false) (hns : noSettled s) :
    s.attempts = [] := by
  cases hatt : s.attempts with
  | nil => rfl
  | cons a t =>
    have h1 := hinv.quiet hrf a (by rw [hatt]; exact List.mem_cons_self a t)
    have h2 := hns a (by rw [hatt]; exact List.mem_cons_self a t)
    rw [h1] at h2
    simp at h2

/-- A freshly published entry is never stale for a nonnegative ttl: its age
is exactly zero. -/
lemma needsRefresh_fresh_false (dir : String) (now : Int) {ttl : ℚ} (httl : 0 ≤ ttl) :
    needsRefresh now (some (performDumpEntry dir now)) ttl = false := by
  simp only [needsRefresh, performDumpEntry, getCacheAgeSeconds]
  apply decide_eq_false
  have hz : ((now : ℚ) - (now : ℚ)) / 1000 = 0 := by
    simp
  rw [hz]
  exact not_lt.mpr httl

/-- Preservation of the episode invariant along one concurrent-episode step
(no external trigger; issuances only while no attempt has settled). -/
lemma epInv_step {dir : String} {now : Int} {c0 : Option CacheEntry} {l : Label} {s t : Sys}
    (hinv : EpInv dir now c0 s) (hstep : Step dir now l s t)
    (hconc : isIssue s l → noSettled s) (hnt : l.isTrigger = false) :
    EpInv dir now c0 t := by
  cases hstep with
  | trigger ttl s =>
    simp [Label.isTrigger] at hnt
  | run i s c hc hpc =>
    by_cases hr : s.refreshing = true
    · cases hp : s.refreshPromise with
      | some rid =>
        have ht : runSegment now i s = setPC s i (CallerPC.awaitingJoin rid) := by
          simp [runSegment, hc, hr, hp]
        rw [ht]
        apply epInv_setPC hinv
        · intro h2
          simp at h2
        · intro v h2
          simp at h2
        · intro err h2
          simp at h2
      | none =>
        exact absurd (hinv.flag_iff.mp hr) (by simp [hp])
    · have hrf : s.refreshing = false := by
        simpa using hr
      by_cases hn : needsRefresh now s.latestCache c.ttl = true
      · have hattnil : s.attempts = [] := by
          rcases hpc with hpcn | hpcr
          · exact epInv_issue_attempts_nil hinv hrf (hconc (by simp [isIssue, hc, hpcn]))
          · have hok := hinv.ready_ok c (List.getElem?_mem hc) hpcr
            have hlc := hinv.cache_ok hok
            have hf := needsRefresh_fresh_false dir now
              (hinv.ttls_ok c (List.getElem?_mem hc)).1
            rw [hlc, hf] at hn
            simp at hn
        have hlc0 : s.latestCache = c0 := hinv.cache_init hattnil
        have ht : runSegment now i s =
            { s with refreshing := true
                     refreshPromise := some s.attempts.length
                     attempts := s.attempts ++ [AttemptPhase.dumping]
                     callers := s.callers.set i
                       ⟨c.ttl, CallerPC.awaitingOwn s.attempts.length⟩ } := by
          simp [runSegment, hc, hrf, hn]
        rw [ht, hattnil]
        constructor
        · simp
        · simp
        · intro h2
          simp at h2
        · intro _
          exact hlc0
        · intro e he
          simp at he
        · intro hok2
          simp at hok2
        · intro h0
          simp at h0
        · intro c' hc'
          rcases List.mem_or_eq_of_mem_set hc' with h2 | h2
          · exact hinv.ttls_ok c' h2
          · rw [h2]
            exact hinv.ttls_ok c (List.getElem?_mem hc)
        · intro he
          apply hinv.ne_callers
          have hlen := congrArg List.length he
          rw [List.length_set] at hlen
          exact List.eq_nil_of_length_eq_zero hlen
        · intro c' hc' hr2
          rcases List.mem_or_eq_of_mem_set hc' with h2 | h2
          · exact absurd (hinv.ready_ok c' h2 hr2) (by rw [hattnil]; simp)
          · rw [h2] at hr2
            simp at hr2
        · intro c' hc' v hd
          rcases List.mem_or_eq_of_mem_set hc' with h2 | h2
          · exact absurd (hinv.done_ok c' h2 v hd).2 (by rw [hattnil]; simp)
          · rw [h2] at hd
            simp at hd
        · intro c' hc' err hd
          rcases List.mem_or_eq_of_mem_set hc' with h2 | h2
          · exact absurd (hinv.done_err c' h2 err hd) (by rw [hattnil]; simp)
          · rw [h2] at hd
            simp at hd
      · have hn' : needsRefresh now s.latestCache c.ttl = false := by
          simpa using hn
        have hkey : s.latestCache = some (performDumpEntry dir now) ∧
            AttemptPhase.settled (Except.ok ()) ∈ s.attempts := by
          rcases hpc with hpcn | hpcr
          · have hattnil := epInv_issue_attempts_nil hinv hrf
              (hconc (by simp [isIssue, hc, hpcn]))
            have hlc0 := hinv.cache_init hattnil
            have hst := (hinv.ttls_ok c (List.getElem?_mem hc)).2
            rw [← hlc0] at hst
            rw [hst] at hn'
            simp at hn'
          · have hok := hinv.ready_ok c (List.getElem?_mem hc) hpcr
            exact ⟨hinv.cache_ok hok, hok⟩
        have ht : runSegment now i s = setPC s i (CallerPC.done (Except.ok s.latestCache)) := by
          simp [runSegment, hc, hrf, hn']
        rw [ht]
        apply epInv_setPC hinv
        · intro h2
          simp at h2
        · intro v hd
          injection hd with h2
          injection h2 with h3
          constructor
          · rw [← h3]
            exact hkey.1
          · exact hkey.2
        · intro err hd
          simp at hd
  | dumpOk rid s h =>
    obtain ⟨hatt, hrid⟩ := list_len_le_one_eq hinv.len_le h
    subst hrid
    have hlc : s.latestCache = c0 :=
      hinv.cache_dump (by rw [hatt]; exact List.mem_singleton_self _)
    have hnosettled : ∀ out : Except String Unit, AttemptPhase.settled out ∉ s.attempts := by
      intro out hmem
      rw [hatt] at hmem
      have := List.mem_singleton.mp hmem
      simp at this
    have hatt' : (publishFn dir now 0 s).attempts =
        [AttemptPhase.cleaning (performDumpEntry dir now)] := by
      show s.attempts.set 0 _ = _
      rw [hatt]
      rfl
    constructor
    · rw [hatt']
      simp
    · exact hinv.flag_iff
    · intro hrf a ha
      have h5 := hinv.quiet hrf AttemptPhase.dumping (by rw [hatt]; exact List.mem_singleton_self _)
      simp [AttemptPhase.isSettled] at h5
    · intro hd
      rw [hatt'] at hd
      simp at hd
    · intro e he
      rw [hatt'] at he
      have he' := List.mem_singleton.mp he
      have he2 : e = performDumpEntry dir now := by
        injection he'
      subst he2
      exact ⟨rfl, rfl⟩
    · intro hok
      rw [hatt'] at hok
      simp at hok
    · intro h0
      rw [hatt'] at h0
      simp at h0
    · intro c hc
      exact hinv.ttls_ok c hc
    · exact hinv.ne_callers
    · intro c hc hr
      exact absurd (hinv.ready_ok c hc hr) (hnosettled _)
    · intro c hc v hd
      exact absurd (hinv.done_ok c hc v hd).2 (hnosettled _)
    · intro c hc err hd
      exact absurd (hinv.done_err c hc err hd) (hnosettled _)
  | dumpFail rid err s h =>
    obtain ⟨hatt, hrid⟩ := list_len_le_one_eq hinv.len_le h
    subst hrid
    have hnosettled : ∀ out : Except String Unit, AttemptPhase.settled out ∉ s.attempts := by
      intro out hmem
      rw [hatt] at hmem
      have := List.mem_singleton.mp hmem
      simp at this
    have hatt' : (settleFn 0 (Except.error err) s).attempts =
        [AttemptPhase.settled (Except.error err)] := by
      show s.attempts.set 0 _ = _
      rw [hatt]
      rfl
    constructor
    · rw [hatt']
      simp
    · simp [settleFn]
    · intro _ a ha
      rw [hatt'] at ha
      rw [List.mem_singleton.mp ha]
      rfl
    · intro hd
      rw [hatt'] at hd
      simp at hd
    · intro e he
      rw [hatt'] at he
      simp at he
    · intro hok
      rw [hatt'] at hok
      have := List.mem_singleton.mp hok
      simp at this
    · intro h0
      rw [hatt'] at h0
      simp at h0
    · intro c hc
      exact hinv.ttls_ok c hc
    · exact hinv.ne_callers
    · intro c hc hr
      exact absurd (hinv.ready_ok c hc hr) (hnosettled _)
    · intro c hc v hd
      exact absurd (hinv.done_ok c hc v hd).2 (hnosettled _)
    · intro c hc err' hd
      exact absurd (hinv.done_err c hc err' hd) (hnosettled _)
  | cleanupOk rid s e h =>
    obtain ⟨hatt, hrid⟩ := list_len_le_one_eq hinv.len_le h
    subst hrid
    obtain ⟨hefresh, hlc⟩ :=
      hinv.cache_clean e (by rw [hatt]; exact List.mem_singleton_self _)
    have hnosettled : ∀ out : Except String Unit, AttemptPhase.settled out ∉ s.attempts := by
      intro out hmem
      rw [hatt] at hmem
      have := List.mem_singleton.mp hmem
      simp at this
    have hatt' : (settleFn 0 (Except.ok ()) s).attempts =
        [AttemptPhase.settled (Except.ok ())] := by
      show s.attempts.set 0 _ = _
      rw [hatt]
      rfl
    constructor
    · rw [hatt']
      simp
    · simp [settleFn]
    · intro _ a ha
      rw [hatt'] at ha
      rw [List.mem_singleton.mp ha]
      rfl
    · intro hd
      rw [hatt'] at hd
      simp at hd
    · intro e' he'
      rw [hatt'] at he'
      simp at he'
    · intro _
      show s.latestCache = some (performDumpEntry dir now)
      rw [hlc, hefresh]
    · intro h0
      rw [hatt'] at h0
      simp at h0
    · intro c hc
      exact hinv.ttls_ok c hc
    · exact hinv.ne_callers
    · intro c hc hr
      exact absurd (hinv.ready_ok c hc hr) (hnosettled _)
    · intro c hc v hd
      exact absurd (hinv.done_ok c hc v hd).2 (hnosettled _)
    · intro c hc err' hd
      exact absurd (hinv.done_err c hc err' hd) (hnosettled _)
  | cleanupFail rid err s e h =>
    obtain ⟨hatt, hrid⟩ := list_len_le_one_eq hinv.len_le h
    subst hrid
    have hnosettled : ∀ out : Except String Unit, AttemptPhase.settled out ∉ s.attempts := by
      intro out hmem
      rw [hatt] at hmem
      have := List.mem_singleton.mp hmem
      simp at this
    have hatt' : (settleFn 0 (Except.error err) s).attempts =
        [AttemptPhase.settled (Except.error err)] := by
      show s.attempts.set 0 _ = _
      rw [hatt]
      rfl
    constructor
    · rw [hatt']
      simp
    · simp [settleFn]
    · intro _ a ha
      rw [hatt'] at ha
      rw [List.mem_singleton.mp ha]
      rfl
    · intro hd
      rw [hatt'] at hd
      simp at hd
    · intro e' he'
      rw [hatt'] at he'
      simp at he'
    · intro hok
      rw [hatt'] at hok
      have := List.mem_singleton.mp hok
      simp at this
    · intro h0
      rw [hatt'] at h0
      simp at h0
    · intro c hc
      exact hinv.ttls_ok c hc
    · exact hinv.ne_callers
    · intro c hc hr
      exact absurd (hinv.ready_ok c hc hr) (hnosettled _)
    · intro c hc v hd
      exact absurd (hinv.done_ok c hc v hd).2 (hnosettled _)
    · intro c hc err' hd
      exact absurd (hinv.done_err c hc err' hd) (hnosettled _)
  | resume i s c rid out hc hpc ha =>
    rcases hpc with hpc | hpc
    · cases out with
      | error err =>
        have ht : resumeFn i s = setPC s i (CallerPC.done (Except.error err)) := by
          simp only [resumeFn, hc, hpc, ha]
        rw [ht]
        apply epInv_setPC hinv
        · intro h2
          simp at h2
        · intro v h2
          simp at h2
        · intro err' hd
          injection hd with h2
          injection h2 with h3
          rw [← h3]
          exact List.getElem?_mem ha
      | ok u =>
        cases u
        have ht : resumeFn i s = setPC s i CallerPC.ready := by
          simp only [resumeFn, hc, hpc, ha]
        rw [ht]
        apply epInv_setPC hinv
        · intro _
          exact List.getElem?_mem ha
        · intro v h2
          simp at h2
        · intro err h2
          simp at h2
    · cases out with
      | error err =>
        have ht : resumeFn i s = setPC s i (CallerPC.done (Except.error err)) := by
          simp only [resumeFn, hc, hpc, ha]
        rw [ht]
        apply epInv_setPC hinv
        · intro h2
          simp at h2
        · intro v h2
          simp at h2
        · intro err' hd
          injection hd with h2
          injection h2 with h3
          rw [← h3]
          exact List.getElem?_mem ha
      | ok u =>
        cases u
        have hok : AttemptPhase.settled (Except.ok ()) ∈ s.attempts := List.getElem?_mem ha
        have hlc := hinv.cache_ok hok
        have ht : resumeFn i s = setPC s i (CallerPC.done (Except.ok s.latestCache)) := by
          simp only [resumeFn, hc, hpc, ha]
        rw [ht]
        apply epInv_setPC hinv
        · intro h2
          simp at h2
        · intro v hd
          injection hd with h2
          injection h2 with h3
          constructor
          · rw [← h3]
            exact hlc
          · exact hok
        · intro err hd
          simp at hd

lemma epInv_reach {dir : String} {now : Int} {c0 : Option CacheEntry} {s0 s : Sys}
    (h0 : EpInv dir now c0 s0) (hr : ConcReach dir now s0 s) : EpInv dir now c0 s := by
  induction hr with
  | refl => exact h0
  | tail hr hstep hconc hnt ih => exact epInv_step ih hstep hconc hnt

/-! ### Claim theorem: single-flight `ensureFreshCache` (C1) -/

/-- C1: for any number `N ≥ 1` of concurrent `ensureFreshCache` calls issued
while the cache is stale (each call's first segment runs before the
episode's refresh settles, and every caller sees the initial cache as stale
with a nonnegative ttl), once all callers have returned: exactly one
refresh attempt — one `performDump` — was ever started, and every caller
observes the same outcome (the same published entry on success, the same
error on failure).  Moreover a caller whose segment runs while a refresh is
in flight always attaches to that same in-flight promise instead of
starting a second one. -/
theorem ensureFresh_single_flight (dir : String) (now : Int) (c0 : Option CacheEntry)
    (ttls : List ℚ) (s : Sys)
    (hne : ttls ≠ [])
    (hstale : ∀ t ∈ ttls, 0 ≤ t ∧ needsRefresh now c0 t = true)
    (hreach : ConcReach dir now (initSys c0 ttls) s)
    (hdone : ∀ c ∈ s.callers, c.pc.isDone = true) :
    s.attempts.length = 1
    ∧ (∃ out, ∀ c ∈ s.callers, c.pc = CallerPC.done out)
    ∧ (∀ (u : Sys) (j rid : Nat) (c : Caller), u.refreshing = true →
        u.refreshPromise = some rid → u.callers[j]? = some c →
        (c.pc = CallerPC.notStarted ∨ c.pc = CallerPC.ready) →
        ((runSegment now j u).callers[j]?.map Caller.pc) =
          some (CallerPC.awaitingJoin rid)) := by
  have hinv := epInv_reach (epInv_init hne hstale) hreach
  obtain ⟨c₀, hc₀⟩ : ∃ c, c ∈ s.callers := by
    cases hcs : s.callers with
    | nil => exact absurd hcs hinv.ne_callers
    | cons a t => exact ⟨a, List.mem_cons_self a t⟩
  obtain ⟨out₀, hout₀⟩ := isDone_exists (hdone c₀ hc₀)
  have hsettled : ∃ outA, AttemptPhase.settled outA ∈ s.attempts := by
    cases out₀ with
    | ok v => exact ⟨Except.ok (), (hinv.done_ok c₀ hc₀ v hout₀).2⟩
    | error e => exact ⟨Except.error e, hinv.done_err c₀ hc₀ e hout₀⟩
  obtain ⟨outA, hmemA⟩ := hsettled
  have hne' : s.attempts ≠ [] := by
    intro h
    rw [h] at hmemA
    simp at hmemA
  have hlen1 : s.attempts.length = 1 := by
    have h3 : 0 < s.attempts.length := List.length_pos.mpr hne'
    have h4 := hinv.len_le
    omega
  refine ⟨hlen1, ?_, ?_⟩
  · obtain ⟨a0, hatt⟩ : ∃ a, s.attempts = [a] := by
      cases hatt : s.attempts with
      | nil => exact absurd hatt hne'
      | cons a t =>
        rw [hatt, List.length_cons] at hlen1
        have ht0 : t.length = 0 := by omega
        exact ⟨a, by rw [List.eq_nil_of_length_eq_zero ht0]⟩
    have ha0 : a0 = AttemptPhase.settled outA := by
      rw [hatt] at hmemA
      exact (List.mem_singleton.mp hmemA).symm
    subst ha0
    cases outA with
    | ok u =>
      cases u
      refine ⟨Except.ok (some (performDumpEntry dir now)), ?_⟩
      intro c hc
      obtain ⟨out, hout⟩ := isDone_exists (hdone c hc)
      cases out with
      | ok v =>
        have h5 := hinv.done_ok c hc v hout
        rw [hout, h5.1]
      | error e =>
        have h6 := hinv.done_err c hc e hout
        rw [hatt] at h6
        have h7 := List.mem_singleton.mp h6
        simp at h7
    | error err =>
      refine ⟨Except.error err, ?_⟩
      intro c hc
      obtain ⟨out, hout⟩ := isDone_exists (hdone c hc)
      cases out with
      | ok v =>
        have h5 := (hinv.done_ok c hc v hout).2
        rw [hatt] at h5
        have h7 := List.mem_singleton.mp h5
        simp at h7
      | error e =>
        have h6 := hinv.done_err c hc e hout
        rw [hatt] at h6
        have h7 := List.mem_singleton.mp h6
        have h8 : e = err := by
          injection h7 with h9
          injection h9
        rw [hout, h8]
  · intro u j rid c hru hpu hcu hpcu
    have ht : runSegment now j u = setPC u j (CallerPC.awaitingJoin rid) := by
      simp [runSegment, hcu, hru, hpu]
    rw [ht, setPC_get u j _ hcu]
    rfl

/-- Witness for C1: one caller with `ttl = 0` and an empty cache runs the
full episode — issue, dump success, cleanup, resumption — after which it is
done and exactly one attempt was started. -/
theorem ensureFresh_single_flight_witness :
    (∀ c ∈ (resumeFn 0 (settleFn 0 (Except.ok ())
        (publishFn "./cache" 0 0 (runSegment 0 0 (initSys none [0]))))).callers,
      c.pc.isDone = true)
    ∧ (resumeFn 0 (settleFn 0 (Except.ok ())
        (publishFn "./cache" 0 0 (runSegment 0 0 (initSys none [0]))))).attempts.length = 1 := by
  have hreach : ConcReach "./cache" 0 (initSys none [0])
      (resumeFn 0 (settleFn 0 (Except.ok ())
        (publishFn "./cache" 0 0 (runSegment 0 0 (initSys none [0]))))) := by
    refine ConcReach.tail (ConcReach.tail (ConcReach.tail (ConcReach.tail
      (ConcReach.refl _)
      (Step.run 0 _ ⟨0, CallerPC.notStarted⟩ rfl (Or.inl rfl)) (by decide) rfl)
      (Step.dumpOk 0 _ rfl) (by decide) rfl)
      (Step.cleanupOk 0 _ (performDumpEntry "./cache" 0) rfl) (by decide) rfl)
      (Step.resume 0 _ ⟨0, CallerPC.awaitingOwn 0⟩ 0 (Except.ok ()) rfl (Or.inr rfl) rfl)
      (by decide) rfl
  have hdone : ∀ c ∈ (resumeFn 0 (settleFn 0 (Except.ok ())
      (publishFn "./cache" 0 0 (runSegment 0 0 (initSys none [0]))))).callers,
      c.pc.isDone = true := by
    decide
  exact ⟨hdone, (ensureFresh_single_flight "./cache" 0 none [0] _
    (by decide) (by decide) hreach hdone).1⟩

/-! ### Claim theorems: coordinator invariants (C10, C3, C2) -/

/-- C10: in every state reachable from a quiescent start (flag down, no
handle, no attempt) by any sequence of coordinator operations —
`ensureFreshCache` segments, `triggerRefresh`, dump/cleanup completions,
waiter resumptions — the `refreshing` flag is true exactly when the
in-flight handle `refreshPromise` is non-null: the two are set together by
the start branches and cleared together by the shared `finally` callback. -/
theorem refreshing_iff_refreshPromise (dir : String) (now : Int) (s0 s : Sys)
    (h1 : s0.refreshing = false) (h2 : s0.refreshPromise = none) (h3 : s0.attempts = [])
    (hr : GReach dir now s0 s) :
    (s.refreshing = true ↔ ∃ rid, s.refreshPromise = some rid) := by
  have hinv := publishInv_reach (publishInv_init h1 h2 h3) hr
  rw [hinv.flag_iff]
  cases s.refreshPromise <;> simp

/-- Witness for C10 after one `triggerRefresh` step. -/
theorem refreshing_iff_refreshPromise_witness :
    ((triggerFn 0 0 (initSys none [])).refreshing = true ↔
      ∃ rid, (triggerFn 0 0 (initSys none [])).refreshPromise = some rid) :=
  refreshing_iff_refreshPromise "./cache" 0 (initSys none []) _ rfl rfl rfl
    (GReach.tail (GReach.refl _) (Step.trigger 0 _))

/-- C3: (publication before retention) in every reachable state in which a
refresh attempt has entered its cleanup phase, the entry it produced is
already published as `latestCache`; and (retention keeps the newest) with
`keepCount ≥ 1` the strictly newest artifact — which is the just-published
entry, since `performDump` stamps the current instant — is never in the
delete set and always among the kept set. -/
theorem publish_before_prune_spec (dir : String) (now : Int) :
    (∀ (s0 s : Sys) (rid : Nat) (e : CacheEntry),
        s0.refreshing = false → s0.refreshPromise = none → s0.attempts = [] →
        GReach dir now s0 s →
        s.attempts[rid]? = some (AttemptPhase.cleaning e) →
        s.latestCache = some e)
    ∧ (∀ (files : List String) (k : Nat) (d : DumpFile),
        ((dumpEntriesOf files).map (·.timestamp)).Nodup →
        d ∈ dumpEntriesOf files →
        (∀ d' ∈ dumpEntriesOf files, d' ≠ d → d'.timestamp < d.timestamp) →
        1 ≤ k →
        d ∉ cleanupToDelete files k ∧ d ∈ cleanupKept files k) := by
  constructor
  · intro s0 s rid e h1 h2 h3 hr hcl
    exact (publishInv_reach (publishInv_init h1 h2 h3) hr).cleaning_published rid e hcl
  · intro files k d hnd hmem hmax hk
    have hcnt : (dumpEntriesOf files).countP
        (fun y => decide (d.timestamp < y.timestamp)) = 0 := by
      apply List.countP_eq_zero.mpr
      intro y hy
      simp only [decide_eq_true_eq]
      by_cases hyd : y = d
      · subst hyd
        exact lt_irrefl _
      · exact not_lt.mpr (le_of_lt (hmax y hy hyd))
    constructor
    · intro hdel
      have h9 := (mem_sorted_drop_iff (dumpEntriesOf files) k hnd d).mp
        (by simpa [cleanupToDelete, dumpFilesOf] using hdel)
      omega
    · have h9 := (mem_sorted_take_iff (dumpEntriesOf files) k hnd d).mpr ⟨hmem, by omega⟩
      simpa [cleanupKept, dumpFilesOf] using h9

/-- Witness for C3: a concrete publish step followed by the cleanup phase,
and a concrete two-file store with `keepCount = 1`. -/
theorem publish_before_prune_spec_witness :
    (publishFn "./cache" 0 0 (triggerFn 0 0 (initSys none []))).latestCache =
      some (performDumpEntry "./cache" 0)
    ∧ ((⟨"dump-2.tar.gz", 2⟩ : DumpFile) ∉ cleanupToDelete ["dump-1.tar.gz", "dump-2.tar.gz"] 1
       ∧ (⟨"dump-2.tar.gz", 2⟩ : DumpFile) ∈ cleanupKept ["dump-1.tar.gz", "dump-2.tar.gz"] 1) := by
  have h := publish_before_prune_spec "./cache" 0
  constructor
  · exact h.1 (initSys none []) _ 0 (performDumpEntry "./cache" 0) rfl rfl rfl
      (GReach.tail (GReach.tail (GReach.refl _) (Step.trigger 0 _)) (Step.dumpOk 0 _ rfl))
      rfl
  · exact h.2 ["dump-1.tar.gz", "dump-2.tar.gz"] 1 ⟨"dump-2.tar.gz", 2⟩ (by decide) (by decide)
      (by decide) (by decide)

/-- Counterexample to C2 as claimed: a refresh attempt whose `pg_dump`
succeeds and whose retention pass then fails produces a rejected attempt
promise, yet `latestCache` is no longer what it was before the attempt
started — the new entry was already published. -/
theorem refresh_failure_claim_cex :
    ∃ sF : Sys, GReach "./cache" 7 (initSys none [0]) sF
      ∧ sF.attempts[0]? = some (AttemptPhase.settled (Except.error "rm EACCES"))
      ∧ sF.latestCache ≠ (initSys none [0]).latestCache := by
  refine ⟨settleFn 0 (Except.error "rm EACCES")
      (publishFn "./cache" 7 0 (runSegment 7 0 (initSys none [0]))), ?_, ?_, ?_⟩
  · exact GReach.tail (GReach.tail (GReach.tail (GReach.refl _)
      (Step.run 0 _ ⟨0, CallerPC.notStarted⟩ rfl (Or.inl rfl)))
      (Step.dumpOk 0 _ rfl))
      (Step.cleanupFail 0 "rm EACCES" _ (performDumpEntry "./cache" 7) rfl)
  · rfl
  · simp [settleFn, publishFn, initSys]

/-- C2 amended: when a refresh attempt fails, its error is delivered to
every waiter of that attempt (joiners and starter alike resume with the
same rejection), and the failing settlement itself never touches
`latestCache`: a failure in the generation phase leaves the prior entry in
place, while a failure in the retention phase (after publication) leaves
the newly published entry in place. -/
theorem refresh_failure_spec (dir : String) (now : Int) :
    (∀ (s : Sys) (i rid : Nat) (c : Caller) (err : String),
        s.callers[i]? = some c →
        (c.pc = CallerPC.awaitingJoin rid ∨ c.pc = CallerPC.awaitingOwn rid) →
        s.attempts[rid]? = some (AttemptPhase.settled (Except.error err)) →
        ((resumeFn i s).callers[i]?.map Caller.pc) =
          some (CallerPC.done (Except.error err)))
    ∧ (∀ (s : Sys) (rid : Nat) (err : String),
        (settleFn rid (Except.error err) s).latestCache = s.latestCache)
    ∧ (∀ (s0 s : Sys) (rid : Nat) (e : CacheEntry) (err : String),
        s0.refreshing = false → s0.refreshPromise = none → s0.attempts = [] →
        GReach dir now s0 s →
        s.attempts[rid]? = some (AttemptPhase.cleaning e) →
        (settleFn rid (Except.error err) s).latestCache = some e) := by
  refine ⟨?_, ?_, ?_⟩
  · intro s i rid c err hc hpc ha
    rcases hpc with hpc | hpc
    · simp only [resumeFn, hc, hpc, ha]
      rw [setPC_get s i _ hc]
      rfl
    · simp only [resumeFn, hc, hpc, ha]
      rw [setPC_get s i _ hc]
      rfl
  · intro s rid err
    rfl
  · intro s0 s rid e err h1 h2 h3 hr hcl
    have := (publishInv_reach (publishInv_init h1 h2 h3) hr).cleaning_published rid e hcl
    simpa [settleFn] using this

/-- Witness for the amended C2: a waiter attached to a failed attempt
resumes with that error, and a cleanup-phase failure leaves the published
entry current. -/
theorem refresh_failure_spec_witness :
    ((resumeFn 0 ⟨none, false, none, [AttemptPhase.settled (Except.error "boom")],
        [⟨0, CallerPC.awaitingOwn 0⟩]⟩).callers[0]?.map Caller.pc) =
      some (CallerPC.done (Except.error "boom"))
    ∧ (settleFn 0 (Except.error "rm EACCES")
        (publishFn "./cache" 0 0 (triggerFn 0 0 (initSys none [])))).latestCache =
      some (performDumpEntry "./cache" 0) := by
  have h := refresh_failure_spec "./cache" 0
  constructor
  · exact h.1 _ 0 0 ⟨0, CallerPC.awaitingOwn 0⟩ "boom" rfl (Or.inr rfl) rfl
  · exact h.2.2 (initSys none []) _ 0 (performDumpEntry "./cache" 0) "rm EACCES" rfl rfl rfl
      (GReach.tail (GReach.tail (GReach.refl _) (Step.trigger 0 _)) (Step.dumpOk 0 _ rfl))
      rfl

/-! ### Claim theorems: endpoint layer (C8, C9) -/

/-- C8: a `GET /dump` served while `latestCache` points at a file absent
from the store invalidates `latestCache`, answers
`503 { error: "Cache file missing", retryable: true }`, and every `/status`
taken while `latestCache` is absent reports `hasCache: false`; no
coordinator step re-establishes an entry except a successful dump
publication (`dumpOk`). -/
theorem dump_missing_file_spec (now : Int) (ttl : ℚ) (store : List String)
    (s : ServerState) (e : CacheEntry)
    (hl : s.latestCache = some e) (hm : e.path ∉ store) :
    dumpServePhase now store s =
      (⟨503, RespBody.jsonErr "Cache file missing" true⟩, { s with latestCache := none })
    ∧ (∀ s' : ServerState, s'.latestCache = none →
        statusOf now ttl s' = RespBody.statusJson false none none s'.refreshing ttl)
    ∧ statusOf now ttl { s with latestCache := none } =
        RespBody.statusJson false none none s.refreshing ttl
    ∧ (∀ (dir : String) (now' : Int) (l : Label) (t u : Sys), Step dir now' l t u →
        t.latestCache = none → u.latestCache = none ∨ ∃ rid, l = Label.dumpOk rid) := by
  refine ⟨?_, ?_, ?_, ?_⟩
  · unfold dumpServePhase
    rw [hl]
    simp [hm]
  · intro s' hs'
    unfold statusOf
    rw [hs']
    rfl
  · unfold statusOf
    rfl
  · intro dir now' l t u hstep hnone
    cases hstep with
    | run i s c hc hpc =>
      left
      rw [runSegment_latestCache]
      exact hnone
    | dumpOk rid s h =>
      right
      exact ⟨rid, rfl⟩
    | dumpFail rid err s h =>
      left
      exact hnone
    | cleanupOk rid s e h =>
      left
      exact hnone
    | cleanupFail rid err s e h =>
      left
      exact hnone
    | resume i s c rid out hc hpc ha =>
      left
      rw [(resumeFn_core _ _).1]
      exact hnone
    | trigger ttl s =>
      left
      rw [triggerFn_latestCache]
      exact hnone

/-- Witness for C8 at a concrete state whose cache file is gone. -/
theorem dump_missing_file_spec_witness :
    dumpServePhase 0 [] ⟨some ⟨"./cache/dump-1.tar.gz", 1⟩, false⟩ =
      (⟨503, RespBody.jsonErr "Cache file missing" true⟩, ⟨none, false⟩)
    ∧ statusOf 0 3600 (⟨none, false⟩ : ServerState) =
        RespBody.statusJson false none none false 3600 := by
  have h := dump_missing_file_spec 0 3600 [] ⟨some ⟨"./cache/dump-1.tar.gz", 1⟩, false⟩
    ⟨"./cache/dump-1.tar.gz", 1⟩ rfl (by decide)
  exact ⟨h.1, h.2.1 ⟨none, false⟩ rfl⟩

/-- C9 (refuting the claimed authentication property): the fetch handler's
behaviour is entirely independent of the request's bearer credential — it
never reads the `Authorization` header — and in particular a `GET /status`
carrying no credential at all is served with `200`. -/
theorem fetch_no_auth_check :
    (∀ (now : Int) (cfgTTL : ℚ) (store : List String) (er : Except String Unit)
        (es : ServerState) (req : Request) (s : ServerState) (a b : Option String),
        handleFetch now cfgTTL store er es { req with authorization := a } s =
        handleFetch now cfgTTL store er es { req with authorization := b } s)
    ∧ (handleFetch 0 3600 [] (Except.ok ()) ⟨none, false⟩
        ⟨"GET", "/status", false, none, none⟩ ⟨none, false⟩).1.status = 200 := by
  constructor
  · intro now cfgTTL store er es req s a b
    rfl
  · rfl

example : parseDumpFile "dump-5.tar.gz" = some ⟨"dump-5.tar.gz", 5⟩ := by decide
example : parseDumpFile "dump-.tar.gz" = none := by decide
example : parseDumpFile "dump-5a.tar.gz" = none := by decide
example : parseDumpFile "backup.tar.gz" = none := by decide
example : dumpFilesOf ["dump-1.tar.gz", "dump-3.tar.gz", "notes.txt", "dump-2.tar.gz"] =
    [⟨"dump-3.tar.gz", 3⟩, ⟨"dump-2.tar.gz", 2⟩, ⟨"dump-1.tar.gz", 1⟩] := by decide
example : (cleanupToDelete ["dump-1.tar.gz", "dump-3.tar.gz", "dump-2.tar.gz"] 1).map (·.file) =
    ["dump-2.tar.gz", "dump-1.tar.gz"] := by decide
example : needsRefresh 5 none 3600 = true := by decide
